import Mathlib

/-!
Verification development for the multi-provider evidence pipeline
(`src/app.py` and `src/services/*`): shallow embedding of the data model,
the provider ranking rule, the domain-suppression store, the orchestrator
fallback policy, the readable-gathering step, the fallback report builder,
the JSON parsing/salvage helpers and the retry wrappers, together with
theorems settling the frozen claims about them.
-/

set_option maxRecDepth 4000

/-- Evidence item, modelling the Python dicts flowing through the pipeline.
A missing key is modelled as the empty string, matching the uniform
`it.get(k) or ''` falsy treatment in the source. -/
structure Item where
  href : String := ""
  link : String := ""
  url : String := ""
  title : String := ""
  source : String := ""
  date : String := ""
  summary : String := ""
  article_title : String := ""
  article_text : String := ""
deriving DecidableEq, Repr

/-- Python `str.strip()` on a character list (whitespace removed at both ends). -/
def pyStrip (s : List Char) : List Char :=
  ((s.dropWhile Char.isWhitespace).reverse.dropWhile Char.isWhitespace).reverse

/-- Python `str.strip()` at `String` level. -/
def pyStripStr (s : String) : String := String.mk (pyStrip s.toList)

/-- Whether `pat` occurs at the start of `l` (used for literal regex anchors). -/
def begSeg : List Char → List Char → Bool
  | [], _ => true
  | _ :: _, [] => false
  | p :: ps, c :: cs => p == c && begSeg ps cs

/-- Whether `pat` occurs somewhere inside `l` (Python `pat in s`). -/
def hasSeg (pat : List Char) : List Char → Bool
  | [] => pat.isEmpty
  | c :: cs => begSeg pat (c :: cs) || hasSeg pat cs

/-- Python `"\n".join(lines)`. -/
def joinNL : List String → String
  | [] => ""
  | [s] => s
  | s :: rest => s ++ "\n" ++ joinNL rest

/-! ## Ranking rule (`_rank_results` of `search_service.py` / `llm_search_service.py`,
`_rank` of `mcp_ddg_service.py` / `mock_service.py`; the four bodies are identical,
differing only in which field supplies the URL, abstracted as `domOf`). -/

/-- The partition loop of `_rank_results`: skip blacklisted domains, route
trusted domains to the first component and the rest to the second, keeping
each partition's original relative order. -/
def rankSplit (domOf : Item → String) (trusted blacklist : List String) :
    List Item → List Item × List Item
  | [] => ([], [])
  | it :: rest =>
    let p := rankSplit domOf trusted blacklist rest
    if domOf it ∈ blacklist then p
    else if trusted ≠ [] ∧ domOf it ∈ trusted then (it :: p.1, p.2)
    else (p.1, it :: p.2)

/-- `_rank_results`: `ranked = trusted + ([] if self.only_trusted else others)`
then `ranked[:self.max_results]`. -/
def rank_results (domOf : Item → String) (trusted blacklist : List String)
    (only_trusted : Bool) (max_results : Nat) (items : List Item) : List Item :=
  let p := rankSplit domOf trusted blacklist items
  (p.1 ++ (if only_trusted then [] else p.2)).take max_results

/-- URL chosen by `search_service._rank_results`: `it.get('href') or it.get('link') or ''`. -/
def ddgsUrlOf (it : Item) : String :=
  if it.href ≠ "" then it.href else if it.link ≠ "" then it.link else ""

/-- URL chosen by `llm_search_service._rank_results`: `it.get('href') or it.get('url') or ''`. -/
def llmUrlOf (it : Item) : String :=
  if it.href ≠ "" then it.href else if it.url ≠ "" then it.url else ""

/-- URL chosen by `mcp_ddg_service._rank` and `mock_service._rank`: `it.get('href') or ''`. -/
def mcpUrlOf (it : Item) : String := it.href

/-! ## Domain suppression store (`crawler_service.py`). -/

/-- Per-domain suppression record, as stored in `.suppress_domains.json`. -/
structure SupRec where
  count : Nat
  suppress_until : Nat
deriving DecidableEq, Repr

/-- The store: domain-keyed mapping (Python dict, modelled as assoc list). -/
abbrev SupStore := List (String × SupRec)

/-- Dict lookup `self._suppress.get(domain)`. -/
def supGet (sup : SupStore) (d : String) : Option SupRec :=
  ((sup : List (String × SupRec)).find? (fun p => p.1 == d)).map (fun p => p.2)

/-- Dict write `self._suppress[domain] = rec`. -/
def supSet (sup : SupStore) (d : String) (r : SupRec) : SupStore :=
  if (sup : List (String × SupRec)).any (fun p => p.1 == d) then
    (sup : List (String × SupRec)).map (fun p => if p.1 == d then (d, r) else p)
  else (sup : List (String × SupRec)) ++ [(d, r)]

/-- `_record_failure`: increment the failure count (starting a fresh record if
absent), and stamp `suppress_until = now + ttl_hours*3600` once the count has
reached the threshold. -/
def recordFailure (threshold ttlHours now : Nat) (sup : SupStore) (d : String) : SupStore :=
  let rec0 := match supGet sup d with
              | some r => r
              | none => { count := 0, suppress_until := 0 }
  let cnt := rec0.count + 1
  let rec1 := if cnt ≥ threshold then
                { count := cnt, suppress_until := now + ttlHours * 3600 }
              else { rec0 with count := cnt }
  supSet sup d rec1

/-- `_record_success`: pop the domain's record entirely. -/
def recordSuccess (sup : SupStore) (d : String) : SupStore :=
  (sup : List (String × SupRec)).filter (fun p => p.1 ≠ d)

/-- The suppression test performed by `_search_one_domain`:
`sup.get('suppress_until', 0) > now`. -/
def isSuppressed (sup : SupStore) (d : String) (now : Nat) : Bool :=
  match supGet sup d with
  | some r => decide (now < r.suppress_until)
  | none => false

/-- Gate of `_search_one_domain`: a blacklisted seed returns `[]`, a currently
suppressed seed returns `[]`; otherwise the domain body runs (abstracted as
`body`, with `none` standing for a raised exception / timeout) and the hits are
capped at `per_site_limit`. -/
def searchOneDomain (blacklist : List String) (sup : SupStore) (now perSite : Nat)
    (d : String) (body : Option (List Item)) : Option (List Item) :=
  if d ∈ blacklist then some []
  else if isSuppressed sup d now = true then some []
  else body.map (fun its => its.take perSite)

/-- Python dict-key dedup of the seed construction `seeds[d] = ...` (first
occurrence kept, insertion order preserved). -/
def pyDedupAux (seen : List String) : List String → List String
  | [] => []
  | d :: rest => if d ∈ seen then pyDedupAux seen rest else d :: pyDedupAux (d :: seen) rest

def pyDedup (l : List String) : List String := pyDedupAux [] l

/-- `CrawlerService.search` result assembly: one task per trusted seed domain,
exceptions isolated per domain (a raising task contributes nothing), results
concatenated in seed order and capped at `max_total_limit`. -/
def crawler_search (blacklist : List String) (sup : SupStore) (now perSite maxTotal : Nat)
    (trusted : List String) (bodies : String → Option (List Item)) : List Item :=
  (((pyDedup trusted).map
      (fun d => (searchOneDomain blacklist sup now perSite d (bodies d)).getD [])).flatten).take
    maxTotal

/-! ## Orchestrator fallback (`app.py` `analyze`, search try-block lines 146-166). -/

/-- Result of one provider `search` call (`raised` = the coroutine threw). -/
inductive SResult where
  | ok (items : List Item)
  | raised
deriving DecidableEq, Repr

structure OrchResult where
  items : List Item
  activeSecondary : Bool
  secondaryInvoked : Bool
deriving DecidableEq, Repr

/-- The `try`-block of `analyze`: run the primary provider's search; when the
configured provider is `crawler`/`mcp`/`llm`, it returned zero items and a
fallback provider is configured, run the fallback and swap the active provider
(`ss = ddgs_fallback`); an exception anywhere in the block is caught and the
item set becomes empty with the primary still active. -/
def searchPhase (provider : String) (fallbackConfigured : Bool)
    (primary secondary : SResult) : OrchResult :=
  match primary with
  | .raised => { items := [], activeSecondary := false, secondaryInvoked := false }
  | .ok its =>
    if (provider = "crawler" ∨ provider = "mcp" ∨ provider = "llm")
        ∧ its.length = 0 ∧ fallbackConfigured then
      match secondary with
      | .raised => { items := [], activeSecondary := false, secondaryInvoked := true }
      | .ok its2 => { items := its2, activeSecondary := true, secondaryInvoked := true }
    else { items := its, activeSecondary := false, secondaryInvoked := false }

/-! ## gather_readables. -/

/-- `gather_readables` of `search_service.py` / `llm_search_service.py` /
`mock_service.py`: select `items[:max_fetch_html]`, fetch each (the fetch
oracle already returns `('', '')` on any failure, as `fetch_readable` never
raises), and zip the `(title, text)` results back positionally. -/
def gather_readables (fetch : Item → String × String) (max_fetch_html : Nat)
    (items : List Item) : List Item :=
  (items.take max_fetch_html).map
    (fun it => { it with article_title := (fetch it).1, article_text := (fetch it).2 })

/-- Outcome of one `fetch_one` in `CrawlerService.gather_readables`. -/
inductive CrawlFetch where
  | exc
  | resp (status : Nat) (titleFound dateFound : Option String) (text : String)
deriving DecidableEq, Repr

/-- `fetch_one`: an exception or an HTTP status ≥ 400 yields the item with empty
`article_text`; otherwise the item is enriched with the extracted text and the
optional regex-derived title and date (the regex extraction itself is
abstracted into the oracle's fields). -/
def crawlerFetchOne (it : Item) (f : CrawlFetch) : Item :=
  match f with
  | .exc => { it with article_text := "" }
  | .resp status t? d? text =>
    if status ≥ 400 then { it with article_text := "" }
    else
      let it1 := match t? with
                 | some t => { it with article_title := t }
                 | none => it
      let it2 := match d? with
                 | some dd => { it1 with date := dd }
                 | none => it1
      { it2 with article_text := text }

/-- `CrawlerService.gather_readables`: every input item is fetched (no
truncation) and the results are appended in input order. -/
def crawler_gather_readables (fetch : Item → CrawlFetch) (items : List Item) : List Item :=
  items.map (fun it => crawlerFetchOne it (fetch it))

/-! ## Process environment (`os.environ` / `os.getenv`). -/

abbrev EnvT := List (String × String)

def envGet (env : EnvT) (k : String) : Option String :=
  ((env : List (String × String)).find? (fun p => p.1 == k)).map (fun p => p.2)

def envSet (env : EnvT) (k v : String) : EnvT :=
  if (env : List (String × String)).any (fun p => p.1 == k) then
    (env : List (String × String)).map (fun p => if p.1 == k then (k, v) else p)
  else (env : List (String × String)) ++ [(k, v)]

/-- Python `str.lower()` (ASCII case folding, enough for the flag values the
handler compares against). -/
def pyLower (s : String) : String := String.mk (s.toList.map Char.toLower)

/-- `os.getenv("EXPERT_MODE", "true").lower() == "true"` (read at `app.py:189`
and again when building the response at `app.py:265`). -/
def expertFlag (env : EnvT) : Bool :=
  pyLower ((envGet env ("EXPERT_MODE")).getD ("true")) == "true"

/-- The `"mode"` field of the `/analyze` response (`app.py:265`). -/
def responseMode (env : EnvT) : String :=
  if expertFlag env = true then "expert" else "classic"

/-- `(it.get('article_text') or '').strip()` non-emptiness, the predicate behind
both `got_text` and `has_evidence` in `analyze`. -/
def hasText (it : Item) : Bool := pyStripStr it.article_text ≠ ""

/-- `got_text = sum(1 for it in items_readable if (it.get('article_text') or '').strip())`. -/
def countText (items : List Item) : Nat := items.countP hasText

/-- `has_evidence = any([(it.get('article_text') or '').strip() for it in items_readable])`. -/
def anyText (items : List Item) : Bool := items.any hasText

/-- `app.py:181-184`: when no article text was extracted, the handler writes
`os.environ['EXPERT_MODE'] = 'false'`, mutating process-wide configuration. -/
def afterGatherEnv (env : EnvT) (items : List Item) : EnvT :=
  if countText items = 0 then envSet env ("EXPERT_MODE") ("false") else env

/-! ## JSON values and a model of Python `json.loads`
(used by `_extract_json_array` in `llm_search_service.py` and
`try_parse_json_object` in `report_service.py`). -/

/-- Parsed JSON value. Numbers keep their raw lexeme (the pipeline never does
arithmetic on them); objects keep their members in textual order. -/
inductive JValue where
  | null
  | bool (b : Bool)
  | num (raw : String)
  | str (s : String)
  | arr (elems : List JValue)
  | obj (members : List (String × JValue))

/-- JSON insignificant whitespace. -/
def jWs (c : Char) : Bool := c == ' ' || c == '\t' || c == '\n' || c == '\r'

def jskip (s : List Char) : List Char := s.dropWhile jWs

def hexVal (c : Char) : Option Nat :=
  if '0' ≤ c ∧ c ≤ '9' then some (c.toNat - 48)
  else if 'a' ≤ c ∧ c ≤ 'f' then some (c.toNat - 87)
  else if 'A' ≤ c ∧ c ≤ 'F' then some (c.toNat - 55)
  else none

/-- Integer part of a JSON number: `0` or a nonzero digit followed by digits. -/
def pInt : List Char → Option (List Char × List Char)
  | [] => none
  | c :: r =>
    if c = '0' then some ([c], r)
    else if '1' ≤ c ∧ c ≤ '9' then
      let sp := r.span Char.isDigit
      some (c :: sp.1, sp.2)
    else none

/-- Optional fraction part `.digits`. -/
def pFrac : List Char → List Char × List Char
  | [] => ([], [])
  | c :: r =>
    if c = '.' then
      let sp := r.span Char.isDigit
      if sp.1 = [] then ([], c :: r) else (c :: sp.1, sp.2)
    else ([], c :: r)

/-- Optional exponent part `[eE][+-]?digits`. -/
def pExp : List Char → List Char × List Char
  | [] => ([], [])
  | c :: r =>
    if c = 'e' ∨ c = 'E' then
      match r with
      | sg :: r2 =>
        if sg = '+' ∨ sg = '-' then
          let sp := r2.span Char.isDigit
          if sp.1 = [] then ([], c :: r) else (c :: sg :: sp.1, sp.2)
        else
          let sp := r.span Char.isDigit
          if sp.1 = [] then ([], c :: r) else (c :: sp.1, sp.2)
      | [] => ([], [c])
    else ([], c :: r)

/-- JSON number lexer (`NUMBER_RE` of Python's json scanner). -/
def pNum (s : List Char) : Option (List Char × List Char) :=
  match s with
  | '-' :: r =>
    match pInt r with
    | some (ip, r2) =>
      let fp := pFrac r2
      let ep := pExp fp.2
      some ('-' :: ip ++ fp.1 ++ ep.1, ep.2)
    | none => none
  | _ =>
    match pInt s with
    | some (ip, r2) =>
      let fp := pFrac r2
      let ep := pExp fp.2
      some (ip ++ fp.1 ++ ep.1, ep.2)
    | none => none

mutual

/-- JSON value parser (fuel-indexed recursive descent; the caller must have
skipped leading whitespace). -/
def pValue : Nat → List Char → Option (JValue × List Char)
  | 0, _ => none
  | f + 1, s =>
    match s with
    | [] => none
    | '"' :: r => (pStr f [] r).map (fun p => (JValue.str p.1, p.2))
    | '[' :: r =>
      let r1 := jskip r
      match r1 with
      | ']' :: r2 => some (.arr [], r2)
      | _ =>
        match pElems f r1 with
        | some (es, r2) => some (.arr es, r2)
        | none => none
    | '{' :: r =>
      let r1 := jskip r
      match r1 with
      | '}' :: r2 => some (.obj [], r2)
      | _ =>
        match pMembers f r1 with
        | some (ms, r2) => some (.obj ms, r2)
        | none => none
    | 'n' :: 'u' :: 'l' :: 'l' :: r => some (.null, r)
    | 't' :: 'r' :: 'u' :: 'e' :: r => some (.bool true, r)
    | 'f' :: 'a' :: 'l' :: 's' :: 'e' :: r => some (.bool false, r)
    | _ =>
      match pNum s with
      | some (lx, r) => some (.num (String.mk lx), r)
      | none =>
        match s with
        | 'N' :: 'a' :: 'N' :: r => some (.num ("NaN"), r)
        | 'I' :: 'n' :: 'f' :: 'i' :: 'n' :: 'i' :: 't' :: 'y' :: r =>
          some (.num ("Infinity"), r)
        | '-' :: 'I' :: 'n' :: 'f' :: 'i' :: 'n' :: 'i' :: 't' :: 'y' :: r =>
          some (.num ("-Infinity"), r)
        | _ => none

/-- JSON string body parser (strict mode: unescaped control chars rejected). -/
def pStr : Nat → List Char → List Char → Option (String × List Char)
  | 0, _, _ => none
  | _ + 1, _, [] => none
  | f + 1, acc, c :: rest =>
    if c = '"' then some (String.mk acc.reverse, rest)
    else if c = '\\' then
      match rest with
      | [] => none
      | e :: r2 =>
        if e = '"' then pStr f ('"' :: acc) r2
        else if e = '\\' then pStr f ('\\' :: acc) r2
        else if e = '/' then pStr f ('/' :: acc) r2
        else if e = 'b' then pStr f (Char.ofNat 8 :: acc) r2
        else if e = 'f' then pStr f (Char.ofNat 12 :: acc) r2
        else if e = 'n' then pStr f ('\n' :: acc) r2
        else if e = 'r' then pStr f ('\r' :: acc) r2
        else if e = 't' then pStr f ('\t' :: acc) r2
        else if e = 'u' then
          match r2 with
          | h1 :: h2 :: h3 :: h4 :: r3 =>
            match hexVal h1, hexVal h2, hexVal h3, hexVal h4 with
            | some a, some b, some c2, some d =>
              pStr f (Char.ofNat (((a * 16 + b) * 16 + c2) * 16 + d) :: acc) r3
            | _, _, _, _ => none
          | _ => none
        else none
    else if c.toNat < 32 then none
    else pStr f (c :: acc) rest

/-- Array elements after `[` (first element position; whitespace skipped). -/
def pElems : Nat → List Char → Option (List JValue × List Char)
  | 0, _ => none
  | f + 1, s =>
    match pValue f s with
    | none => none
    | some (v, r) =>
      match jskip r with
      | ',' :: r2 =>
        match pElems f (jskip r2) with
        | some (vs, r3) => some (v :: vs, r3)
        | none => none
      | ']' :: r2 => some ([v], r2)
      | _ => none

/-- Object members after `{` (first key position; whitespace skipped). -/
def pMembers : Nat → List Char → Option (List (String × JValue) × List Char)
  | 0, _ => none
  | f + 1, s =>
    match s with
    | '"' :: r =>
      match pStr f [] r with
      | none => none
      | some (k, r1) =>
        match jskip r1 with
        | ':' :: r2 =>
          match pValue f (jskip r2) with
          | none => none
          | some (v, r3) =>
            match jskip r3 with
            | ',' :: r4 =>
              match pMembers f (jskip r4) with
              | some (ms, r5) => some ((k, v) :: ms, r5)
              | none => none
            | '}' :: r4 => some ([(k, v)], r4)
            | _ => none
        | _ => none
    | _ => none

end

/-- Python `json.loads` on a character list: parse one value surrounded by
optional whitespace; anything left over is an error (`Extra data`). -/
def json_loads_list (s : List Char) : Option JValue :=
  match pValue (8 * s.length + 16) (jskip s) with
  | some (v, r) => if jskip r = [] then some v else none
  | none => none

/-! ## Python truthiness on parsed JSON values. -/

/-- Whether the coefficient of a JSON number lexeme has a nonzero digit
(`0`, `-0.00`, `0e9` are falsy in Python; exponents cannot make a nonzero
coefficient zero). -/
def numTruthy (raw : String) : Bool :=
  (raw.toList.takeWhile (fun c => ¬ (c = 'e' ∨ c = 'E'))).any
    (fun c => c.isDigit && c != '0')

/-- Python truthiness of a parsed JSON value (`bool(x)` for the corresponding
Python object; duplicate object keys collapse in a Python dict but emptiness
is unaffected). -/
def jTruthy : JValue → Bool
  | .null => false
  | .bool b => b
  | .num raw => numTruthy raw
  | .str s => s ≠ ""
  | .arr es => ¬ es.isEmpty
  | .obj ms => ¬ ms.isEmpty

/-- Python dict lookup on the member list of a parsed object: with duplicate
keys the last occurrence wins, as in `dict` construction. -/
def jLookup (ms : List (String × JValue)) (k : String) : Option JValue :=
  (ms.reverse.find? (fun p => p.1 == k)).map (fun p => p.2)

/-! ## Fence stripping and snippet location shared by `_extract_json_array`
and `try_parse_json_object` (`re.sub(r"^```(?:json)?\r?\n", ...)` /
`re.sub(r"\r?\n```$", ...)` then first-bracket / last-bracket slicing). -/

/-- Index of the first occurrence of `c` (`re.search` of a single literal). -/
def firstIdxOf (c : Char) : List Char → Option Nat
  | [] => none
  | x :: xs => if x = c then some 0 else (firstIdxOf c xs).map (· + 1)

/-- Index of the last occurrence of `c` (`str.rfind`, `none` for -1). -/
def lastIdxOf (s : List Char) (c : Char) : Option Nat :=
  (firstIdxOf c s.reverse).map (fun k => s.length - 1 - k)

/-- `re.sub(r"^```(?:json)?\r?\n", "", t)` on an already-stripped text. -/
def stripFencePrefix (s : List Char) : List Char :=
  if begSeg (("```json\r\n").toList) s then s.drop 9
  else if begSeg (("```json\n").toList) s then s.drop 8
  else if begSeg (("```\r\n").toList) s then s.drop 5
  else if begSeg (("```\n").toList) s then s.drop 4
  else s

/-- `re.sub(r"\r?\n```$", "", t)` on an already-stripped text. -/
def stripFenceSuffix (s : List Char) : List Char :=
  if begSeg (("\r\n```").toList.reverse) s.reverse then (s.reverse.drop 5).reverse
  else if begSeg (("\n```").toList.reverse) s.reverse then (s.reverse.drop 4).reverse
  else s

/-- The preprocessing shared by both extractors: `t = text.strip()` followed by
the two fence substitutions (the code then reassigns `text = t`). -/
def preClean (s : List Char) : List Char :=
  stripFenceSuffix (stripFencePrefix (pyStrip s))

/-! ## `try_parse_json_object` (`report_service.py`). -/

/-- `try_parse_json_object`: fence-strip, slice from the first `{` to the last
`}` (only when the latter comes after the former), `json.loads` the slice and
return it when it is a dict; otherwise try the whole text; `{}` on failure. -/
def try_parse_json_object (text : String) : List (String × JValue) :=
  if text.toList.isEmpty then []
  else
    let t := preClean text.toList
    let viaSlice :=
      match firstIdxOf '{' t, lastIdxOf t '}' with
      | some m, some n =>
        if m < n then
          match json_loads_list ((t.drop m).take (n + 1 - m)) with
          | some (.obj kvs) => some kvs
          | _ => none
        else none
      | _, _ => none
    match viaSlice with
    | some kvs => kvs
    | none =>
      match json_loads_list t with
      | some (.obj kvs) => kvs
      | _ => []

/-! ## `_extract_json_array` (`llm_search_service.py`). -/

/-- The brace-balancing salvage loop run when `json.loads` fails on the
snippet: chars are buffered from each `{` on, the saturating depth counter
(`max(0, depth-1)`) closes an object when it returns to zero, and each closed
buffer that parses to a dict is collected. -/
def salvageLoop : List Char → List Char → Nat → Bool → List JValue
  | [], _, _, _ => []
  | ch :: rest, buf, depth, started =>
    let depth1 := if ch = '{' then depth + 1 else depth
    let started1 := if ch = '{' then true else started
    let buf1 := if started1 then buf ++ [ch] else buf
    if ch = '}' then
      let depth2 := depth1 - 1
      if depth2 = 0 ∧ ¬ buf1.isEmpty then
        (match json_loads_list buf1 with
         | some (.obj kvs) => [JValue.obj kvs]
         | _ => []) ++ salvageLoop rest [] depth2 false
      else salvageLoop rest buf1 depth2 started1
    else salvageLoop rest buf1 depth1 started1

/-- The slice `text[m.start() : (n+1 if n != -1 else len(text))]` taken from
the first `[` (at index `m`) to just past the last `]`, or to the end when
there is no `]`. -/
def sliceFor (t : List Char) (m : Nat) : List Char :=
  match lastIdxOf t ']' with
  | some n => (t.drop m).take (n + 1 - m)
  | none => t.drop m

/-- The `try: data = json.loads(snippet) ... except: (salvage)` block:
a parsed list is returned; a parsed non-list falls through; a parse error
salvages objects, returning them only when at least one was found. -/
def parseSnippet (sn : List Char) : Option (List JValue) :=
  match json_loads_list sn with
  | some (JValue.arr vs) => some vs
  | some _ => none
  | none =>
    match salvageLoop sn [] 0 false with
    | [] => none
    | objs => some objs

/-- The final whole-text attempt: `json.loads(text)` returned when a list. -/
def wholeParse (t : List Char) : Option (List JValue) :=
  match json_loads_list t with
  | some (JValue.arr vs) => some vs
  | _ => none

/-- `_extract_json_array` on the character list of the model output:
fence-strip; slice from the first `[`; parse-or-salvage the slice; as a last
resort `json.loads` the whole (fence-stripped) text. -/
def extract_json_array_list (s : List Char) : Option (List JValue) :=
  if s.isEmpty then none
  else
    match firstIdxOf '[' (preClean s) with
    | none => wholeParse (preClean s)
    | some m =>
      match parseSnippet (sliceFor (preClean s) m) with
      | some vs => some vs
      | none => wholeParse (preClean s)

/-- `_extract_json_array` (`text` is the model output string). -/
def extract_json_array (text : String) : Option (List JValue) :=
  extract_json_array_list text.toList

/-- Naive brace scan used to characterise the salvage loop: scanning `s` from
depth `d`, the depth reaches zero exactly at the final character, which is a
closing brace. -/
def naiveObjAux : List Char → Nat → Bool
  | [], _ => false
  | c :: rest, d =>
    let d1 := if c = '{' then d + 1 else if c = '}' then d - 1 else d
    if c = '}' ∧ d1 = 0 then rest.isEmpty
    else naiveObjAux rest d1

/-- A complete top-level object text in the naive brace metric: starts with
`{` and its brace count closes exactly at its final `}` (no braces hidden in
string literals). -/
def isNaiveObj (o : List Char) : Bool :=
  match o with
  | c :: rest => c = '{' && naiveObjAux rest 1
  | [] => false

/-- Scanning `s` from depth `d` never returns the depth to zero at a closing
brace (used for the truncated trailing garbage after the last complete
object). -/
def closesNever : List Char → Nat → Bool
  | [], _ => true
  | c :: rest, d =>
    let d1 := if c = '{' then d + 1 else if c = '}' then d - 1 else d
    if c = '}' ∧ d1 = 0 then false
    else closesNever rest d1

/-- Concatenation of alternating separator/object chunks inside a truncated
array body. -/
def chunksJoin (cs : List (List Char × List Char)) : List Char :=
  (cs.map (fun c => c.1 ++ c.2)).flatten

/-- The object value a salvage emission produces for an object chunk. -/
def chunkObj (o : List Char) : JValue :=
  (json_loads_list o).getD (JValue.obj [])

/-! ## Fallback report builder (`report_service.build_fallback_markdown`). -/

/-- Source-domain histogram accumulation (`domains[src] = domains.get(src, 0) + 1`,
Python dict insertion order). -/
def histAdd (h : List (String × Nat)) (k : String) : List (String × Nat) :=
  if h.any (fun p => p.1 == k) then
    h.map (fun p => if p.1 == k then (p.1, p.2 + 1) else p)
  else h ++ [(k, 1)]

/-- `domains` histogram over the items' `source` fields (falsy sources skipped). -/
def domHist (items : List Item) : List (String × Nat) :=
  items.foldl (fun h it => if it.source ≠ "" then histAdd h it.source else h) []

/-- Strict key order of `sorted(domains.items(), key=lambda x: (-x[1], x[0]))`. -/
def histLt (a b : String × Nat) : Bool :=
  decide (b.2 < a.2) || (a.2 == b.2 && decide (a.1 < b.1))

/-- Stable insertion into a sorted list (equal keys keep original order). -/
def sortedIns (lt : String × Nat → String × Nat → Bool) (x : String × Nat) :
    List (String × Nat) → List (String × Nat)
  | [] => [x]
  | y :: ys => if lt x y then x :: y :: ys else y :: sortedIns lt x ys

/-- Stable sort matching Python `sorted` for this key. -/
def stableSort (lt : String × Nat → String × Nat → Bool) :
    List (String × Nat) → List (String × Nat)
  | [] => []
  | x :: xs => sortedIns lt x (stableSort lt xs)

/-- `dom_text`: the formatted source distribution. -/
def domText (items : List Item) : String :=
  let h := domHist items
  if h.isEmpty then "无可用来源"
  else
    String.intercalate (", ")
      (((stableSort histLt h).take 8).map (fun p => p.1 ++ ("×") ++ toString p.2))

/-- Key-issue bullet (and excerpt line) for one item with non-empty stripped
article text. -/
def issueLines (it : Item) : List String :=
  if pyStripStr it.article_text = "" then []
  else
    let title := if it.article_title ≠ "" then it.article_title
                 else if it.title ≠ "" then it.title
                 else if it.source ≠ "" then it.source
                 else "未命名"
    let snippet0 := String.mk ((pyStrip it.article_text.toList).map
                     (fun c => if c = '\n' then ' ' else c))
    let snippet := if 180 < snippet0.length
                   then String.mk (snippet0.toList.take 180) ++ "…"
                   else snippet0
    ["- [" ++ title ++ "](" ++ it.href ++ ") — " ++ it.source]
      ++ (if snippet ≠ "" then ["  \n  摘要（正文摘录）：" ++ snippet] else [])

/-- Reference bullet for one item (emitted for all items). -/
def refLine (it : Item) : String :=
  let title := if it.title ≠ "" then it.title
               else if it.article_title ≠ "" then it.article_title
               else if it.source ≠ "" then it.source
               else "来源"
  "- [" ++ title ++ "](" ++ it.href ++ ") — " ++ it.source

/-- `build_fallback_markdown`: the deterministic draft report. -/
def build_fallback_markdown (topic : String) (items : List Item) : String :=
  let topic1 := if topic = "" then "报告" else topic
  let dt := domText items
  joinNL
    (["# " ++ topic1,
      "",
      "## 执行摘要",
      "- 线索覆盖：命中 " ++ toString items.length ++ " 条；来源分布：" ++ dt ++ "。",
      "",
      "## 舆情概览",
      "- 命中条数：" ++ toString items.length,
      "- 来源分布：" ++ dt,
      "",
      "## 关键议题分析"]
     ++ (items.map issueLines).flatten
     ++ ["",
         "## 风险与影响评估",
         "- 品牌：结合正文线索评估正负面曝光与情感倾向（待补充）。",
         "- 政策监管/法律合规：关注监管动向与合规要求（待补充）。",
         "- 安全与公众感知：识别潜在安全事件与公众敏感点（待补充）。",
         "- 财务：关注商业化进度、投入产出与成本压力（待补充）。",
         "- 舆论引爆可能性：监测社交平台传播态势与关键节点（待补充）。",
         "",
         "## 利益相关方与立场",
         "- 媒体/KOL/机构/受众的态度与动机将随证据集完善补充。",
         "",
         "## 结论与建议",
         "- 根据当前已抓取的正文线索，建议持续跟踪并补充证据；在模型服务可用时生成完整专家版报告。",
         "",
         "## 参考来源"]
     ++ items.map refLine
     ++ [""])

/-! ## Report synthesis dispatch (`app.py` lines 177-228). -/

/-- The first "no evidence" marker checked at `app.py:226`. -/
def marker1 : List Char := ("未提供“已抓取正文”的证据列表").toList

/-- The second "no evidence" marker checked at `app.py:226`. -/
def marker2 : List Char := ("未提供证据").toList

/-- `data.get('references')` truthiness for the stage-1 demotion test. -/
def refsTruthy (data : List (String × JValue)) : Bool :=
  match jLookup data ("references") with
  | some v => jTruthy v
  | none => false

structure SynthResult where
  content : String
  envAfter : EnvT
  stage1Ran : Bool
  demoted : Bool
  promptBuilt : Bool
deriving DecidableEq, Repr

/-- The `if not expert_mode:` block (`app.py:210-228`): with no extracted
evidence use the draft builder directly; otherwise build the classic prompt and
call the model (`none` = the call raised, handled by the draft builder); a
final empty or "no evidence" marker response is replaced by the draft builder. -/
def classicBranch (env : EnvT) (items : List Item) (topic : String)
    (classicResp : Option String) (s1ran dem : Bool) : SynthResult :=
  let hasEv := anyText items
  let content0 := if hasEv = false then build_fallback_markdown topic items
                  else match classicResp with
                       | none => build_fallback_markdown topic items
                       | some c => c
  let content1 := if content0 = "" ∨ hasSeg marker1 content0.toList = true
                     ∨ hasSeg marker2 content0.toList = true
                  then build_fallback_markdown topic items else content0
  { content := content1, envAfter := env, stage1Ran := s1ran, demoted := dem,
    promptBuilt := hasEv }

/-- `app.py:177-228`: update the environment when no text was gathered, read
`EXPERT_MODE`, run the two-stage expert protocol (stage oracles give the model
content, `none` = the call raised and the whole `try` falls back to the draft
builder), demoting to the classic branch when stage 1 yields no parsable
object with a truthy `references` field. -/
def synthesisPhase (env0 : EnvT) (items : List Item) (topic : String)
    (stage1 stage2 classicResp : Option String) : SynthResult :=
  let env1 := afterGatherEnv env0 items
  if expertFlag env1 = true then
    match stage1 with
    | none =>
      { content := build_fallback_markdown topic items, envAfter := env1,
        stage1Ran := true, demoted := false, promptBuilt := false }
    | some jt =>
      let data := try_parse_json_object jt
      if data.isEmpty ∨ refsTruthy data = false then
        classicBranch env1 items topic classicResp true true
      else
        match stage2 with
        | none =>
          { content := build_fallback_markdown topic items, envAfter := env1,
            stage1Ran := true, demoted := false, promptBuilt := false }
        | some c2 =>
          { content := c2, envAfter := env1, stage1Ran := true,
            demoted := false, promptBuilt := false }
  else
    classicBranch env1 items topic classicResp false false

/-! ## Retry wrappers. -/

/-- Outcome of one `client.post` attempt inside `DoubaoClient.complete`. -/
inductive DAttempt where
  | readTimeout
  | httpErr
  | otherExc
  | resp (status : Nat) (body : String)
deriving DecidableEq, Repr

inductive DResult where
  | ok (body : String)
  | raised
deriving DecidableEq, Repr

structure DTrace where
  result : DResult
  requests : Nat
  sleeps : List Nat
deriving DecidableEq, Repr

/-- The `for attempt in range(3)` loop of `DoubaoClient.complete`: a response
is passed through `raise_for_status()`, so a status ≥ 400 raises an
`HTTPStatusError` (an `httpx.HTTPError`) which, like every other exception, is
caught, slept on (`1 * 2**attempt` seconds) and retried; after three failures
the last exception is re-raised. -/
def doubaoGo (att : Nat → DAttempt) : Nat → Nat → DTrace
  | 0, _ => { result := .raised, requests := 0, sleeps := [] }
  | fuel + 1, k =>
    match att k with
    | .resp status body =>
      if status ≥ 400 then
        let t := doubaoGo att fuel (k + 1)
        { result := t.result, requests := t.requests + 1, sleeps := 2 ^ k :: t.sleeps }
      else { result := .ok body, requests := 1, sleeps := [] }
    | _ =>
      let t := doubaoGo att fuel (k + 1)
      { result := t.result, requests := t.requests + 1, sleeps := 2 ^ k :: t.sleeps }

def doubaoComplete (att : Nat → DAttempt) : DTrace := doubaoGo att 3 0

/-- Outcome of one `client.get` attempt inside
`SearchService.fetch_readable`. -/
inductive FAttempt where
  | transient
  | otherExc
  | resp (status : Nat) (isHtml : Bool) (title text : String)
deriving DecidableEq, Repr

structure FTrace where
  result : String × String
  requests : Nat
  sleeps : List Nat
deriving DecidableEq, Repr

/-- The `for attempt in range(3)` loop of `SearchService.fetch_readable`: only
`ReadTimeout`/`ConnectTimeout`/`HTTPError` are retried (with the same backoff);
any received response terminates the loop regardless of its status code — a
non-HTML content type yields `('', '')`, otherwise the readability extraction
runs (its result abstracted into the oracle's fields); any other exception
breaks out; the function itself never raises and returns `('', '')` after
exhaustion. -/
def fetchGo (att : Nat → FAttempt) : Nat → Nat → FTrace
  | 0, _ => { result := ("", ""), requests := 0, sleeps := [] }
  | fuel + 1, k =>
    match att k with
    | .resp _ ih t x =>
      { result := if ih = true then (t, x) else ("", ""), requests := 1, sleeps := [] }
    | .otherExc => { result := ("", ""), requests := 1, sleeps := [] }
    | .transient =>
      let r := fetchGo att fuel (k + 1)
      { result := r.result, requests := r.requests + 1, sleeps := 2 ^ k :: r.sleeps }

def fetch_readable (att : Nat → FAttempt) : FTrace := fetchGo att 3 0

/-! ## Sample concrete items for witnesses and counterexamples. -/

def itemA : Item := { href := "https://example.com/a", title := "A", source := "example.com" }

def itemB : Item := { href := "https://example.org/b", title := "B", source := "example.org" }

def itemT : Item :=
  { href := "https://trusted.cn/t", title := "T", source := "trusted.cn",
    article_text := "正文内容……" }

/-! ## Generic association-list lemmas (dict get/set model). -/

theorem assocSet_get {α : Type} (l : List (String × α)) (k : String) (v : α) :
    (((if l.any (fun p => p.1 == k) then
         l.map (fun p => if p.1 == k then (k, v) else p)
       else l ++ [(k, v)]).find? (fun p => p.1 == k)).map (fun p => p.2)) = some v := by
  by_cases hany : l.any (fun p => p.1 == k) = true
  · rw [if_pos hany]
    induction l with
    | nil => simp at hany
    | cons p t ih =>
      by_cases hp : (p.1 == k) = true
      · rw [List.map_cons, if_pos hp, List.find?_cons_of_pos _ (by simp)]
        rfl
      · have hp' : (p.1 == k) = false := by simpa using hp
        have ht : t.any (fun p => p.1 == k) = true := by
          simpa [List.any_cons, hp'] using hany
        rw [List.map_cons, if_neg hp, List.find?_cons_of_neg _ (by simp [hp'])]
        exact ih ht
  · rw [if_neg hany]
    induction l with
    | nil => simp [List.find?]
    | cons p t ih =>
      have hp : (p.1 == k) = false := by
        by_contra hc
        simp only [Bool.not_eq_false] at hc
        simp [List.any_cons, hc] at hany
      have ht : ¬ t.any (fun p => p.1 == k) = true := by
        intro hc
        simp [List.any_cons, hc] at hany
      rw [List.cons_append, List.find?_cons_of_neg _ (by simp [hp])]
      exact ih ht

theorem assocFilter_get {α : Type} (l : List (String × α)) (k : String) :
    (((l.filter (fun p => p.1 ≠ k)).find? (fun p => p.1 == k)).map (fun p => p.2)) = none := by
  induction l with
  | nil => rfl
  | cons p t ih =>
    by_cases hp : p.1 = k
    · simp only [List.filter_cons, decide_eq_true_eq]
      rw [if_neg (by simp [hp])]
      exact ih
    · simp only [List.filter_cons]
      rw [if_pos (by simp [hp])]
      simp only [List.find?, show (p.1 == k) = false by simp [hp]]
      exact ih

theorem supGet_supSet_self (sup : SupStore) (d : String) (r : SupRec) :
    supGet (supSet sup d r) d = some r :=
  assocSet_get sup d r

theorem supGet_recordSuccess (sup : SupStore) (d : String) :
    supGet (recordSuccess sup d) d = none :=
  assocFilter_get sup d

theorem envGet_envSet_self (env : EnvT) (k v : String) :
    envGet (envSet env k v) k = some v :=
  assocSet_get env k v

theorem expertFlag_envSet_false (env : EnvT) :
    expertFlag (envSet env ("EXPERT_MODE") ("false")) = false := by
  unfold expertFlag
  rw [envGet_envSet_self]
  decide

theorem countText_ne_zero_anyText (items : List Item) (h : countText items ≠ 0) :
    anyText items = true := by
  unfold countText at h
  unfold anyText
  rw [List.any_eq_true]
  by_contra hc
  push_neg at hc
  exact h (List.countP_eq_zero.mpr (fun a ha => by simpa using hc a ha))

/-! ## C1 — orchestrator fallback. -/

/-- C1 counterexample: with the crawler provider configured with a fallback,
a *raising* primary search is caught by the `except` around the whole block, so
the configured secondary is never invoked and the item set stays empty — the
claim instead demands that the secondary run and its two items be adopted. -/
theorem c1_counterexample :
    (searchPhase ("crawler") true SResult.raised (SResult.ok [itemA, itemB])).secondaryInvoked
        = false
    ∧ (searchPhase ("crawler") true SResult.raised (SResult.ok [itemA, itemB])).items = [] :=
  ⟨rfl, rfl⟩

/-- C1 amended: the secondary is invoked exactly when the primary *returns* an
empty result set without raising (provider `crawler`/`mcp`/`llm`, fallback
configured); a non-empty secondary result is adopted together with the
secondary as active provider; a raising primary is caught and yields an empty
item set with the primary still active and the secondary not invoked. -/
theorem c1_fallback_amended (provider : String) (fb : Bool) (sec : SResult)
    (hp : provider = "crawler" ∨ provider = "mcp" ∨ provider = "llm") :
    (∀ its2, searchPhase provider true (SResult.ok []) (SResult.ok its2)
        = { items := its2, activeSecondary := true, secondaryInvoked := true })
    ∧ searchPhase provider true (SResult.ok []) SResult.raised
        = { items := [], activeSecondary := false, secondaryInvoked := true }
    ∧ searchPhase provider fb SResult.raised sec
        = { items := [], activeSecondary := false, secondaryInvoked := false }
    ∧ (∀ its, its ≠ [] → searchPhase provider fb (SResult.ok its) sec
        = { items := its, activeSecondary := false, secondaryInvoked := false }) := by
  refine ⟨?_, ?_, ?_, ?_⟩
  · intro its2
    simp [searchPhase, hp]
  · simp [searchPhase, hp]
  · rfl
  · intro its hne
    have hlen : its.length ≠ 0 := by simpa [List.length_eq_zero] using hne
    simp [searchPhase, hlen]

/-- Witness for the amended C1 at a concrete input. -/
theorem c1_fallback_amended_witness :
    searchPhase ("crawler") true (SResult.ok []) (SResult.ok [itemA, itemB])
      = { items := [itemA, itemB], activeSecondary := true, secondaryInvoked := true } :=
  (c1_fallback_amended ("crawler") true (SResult.ok [itemA, itemB]) (Or.inl rfl)).1
    [itemA, itemB]

/-! ## C2 — suppression threshold / TTL / reset. -/

/-- C2: from a clean record, three consecutive `_record_failure` calls (the
default threshold) leave a count of 3 and stamp `suppress_until` to the third
failure's time plus the TTL; the domain then counts as suppressed exactly
before `suppress_until`; a single `_record_success` clears the record
entirely; `_search_one_domain` returns no hits for a suppressed domain. -/
theorem c2_suppression (s : SupStore) (d : String) (ttl n1 n2 n3 : Nat)
    (h0 : supGet s d = none) :
    supGet (recordFailure 3 ttl n3 (recordFailure 3 ttl n2
        (recordFailure 3 ttl n1 s d) d) d) d
      = some { count := 3, suppress_until := n3 + ttl * 3600 }
    ∧ (∀ t, isSuppressed (recordFailure 3 ttl n3 (recordFailure 3 ttl n2
        (recordFailure 3 ttl n1 s d) d) d) d t = true ↔ t < n3 + ttl * 3600)
    ∧ isSuppressed (recordFailure 3 ttl n1 s d) d n1 = false
    ∧ isSuppressed (recordFailure 3 ttl n2 (recordFailure 3 ttl n1 s d) d) d n2 = false
    ∧ (∀ (s' : SupStore) (now : Nat), supGet (recordSuccess s' d) d = none
        ∧ isSuppressed (recordSuccess s' d) d now = false)
    ∧ (∀ bl sup now perSite body, isSuppressed sup d now = true →
        searchOneDomain bl sup now perSite d body = some []) := by
  have e1 : supGet (recordFailure 3 ttl n1 s d) d
      = some { count := 1, suppress_until := 0 } := by
    unfold recordFailure
    rw [h0]
    exact supGet_supSet_self s d _
  have e2 : supGet (recordFailure 3 ttl n2 (recordFailure 3 ttl n1 s d) d) d
      = some { count := 2, suppress_until := 0 } := by
    set s1 := recordFailure 3 ttl n1 s d with hs1
    unfold recordFailure
    rw [e1]
    exact supGet_supSet_self s1 d _
  have e3 : supGet (recordFailure 3 ttl n3 (recordFailure 3 ttl n2
      (recordFailure 3 ttl n1 s d) d) d) d
      = some { count := 3, suppress_until := n3 + ttl * 3600 } := by
    set s2 := recordFailure 3 ttl n2 (recordFailure 3 ttl n1 s d) d with hs2
    unfold recordFailure
    rw [e2]
    exact supGet_supSet_self s2 d _
  refine ⟨e3, ?_, ?_, ?_, ?_, ?_⟩
  · intro t
    rw [isSuppressed, e3]
    simp
  · rw [isSuppressed, e1]
    simp
  · rw [isSuppressed, e2]
    simp
  · intro s' now
    refine ⟨supGet_recordSuccess s' d, ?_⟩
    rw [isSuppressed, supGet_recordSuccess]
  · intro bl sup now perSite body hsup
    unfold searchOneDomain
    by_cases hb : d ∈ bl
    · rw [if_pos hb]
    · rw [if_neg hb, if_pos hsup]

/-- Witness for C2 at a concrete store, domain and times. -/
theorem c2_suppression_witness :
    supGet (recordFailure 3 24 30 (recordFailure 3 24 20
        (recordFailure 3 24 10 [] ("thepaper.cn")) ("thepaper.cn")) ("thepaper.cn")) ("thepaper.cn")
      = some { count := 3, suppress_until := 30 + 24 * 3600 }
    ∧ isSuppressed (recordFailure 3 24 30 (recordFailure 3 24 20
        (recordFailure 3 24 10 [] ("thepaper.cn")) ("thepaper.cn")) ("thepaper.cn"))
        ("thepaper.cn") 86400 = true :=
  ⟨(c2_suppression [] ("thepaper.cn") 24 10 20 30 rfl).1,
   ((c2_suppression [] ("thepaper.cn") 24 10 20 30 rfl).2.1 86400).mpr (by norm_num)⟩

/-! ## C5 — gather_readables item preservation. -/

/-- C5 counterexample: `SearchService.gather_readables` (same code in the LLM
and mock services) selects `items[:max_fetch_html]` first, so with
`max_fetch_html = 1` a two-item input yields one output item — the claim's
"one enriched output item per input item, never dropping an item" fails. -/
theorem c5_counterexample :
    (gather_readables (fun _ => ("", "")) 1 [itemA, itemB]).length
      ≠ ([itemA, itemB] : List Item).length := by
  decide

/-- C5 amended: the search-service variants enrich exactly the first
`max_fetch_html` items, positionally and in input order, never dropping an
item *within that prefix* (a failed fetch yields the item with empty
`article_text`); the crawler variant enriches every input item positionally
with no truncation, and a raising per-item fetch keeps the item with empty
`article_text`. -/
theorem c5_gather_amended :
    (∀ fetch m (items : List Item),
       (gather_readables fetch m items).length = min m items.length)
    ∧ (∀ fetch m (items : List Item) (i : Nat) it, i < m → items[i]? = some it →
        (gather_readables fetch m items)[i]?
          = some { it with article_title := (fetch it).1, article_text := (fetch it).2 })
    ∧ (∀ fetch (items : List Item),
        (crawler_gather_readables fetch items).length = items.length)
    ∧ (∀ fetch (items : List Item) (i : Nat) it, items[i]? = some it →
        (crawler_gather_readables fetch items)[i]? = some (crawlerFetchOne it (fetch it)))
    ∧ (∀ it : Item, (crawlerFetchOne it CrawlFetch.exc).article_text = ""
        ∧ (crawlerFetchOne it CrawlFetch.exc).href = it.href
        ∧ (crawlerFetchOne it CrawlFetch.exc).title = it.title) := by
  refine ⟨?_, ?_, ?_, ?_, ?_⟩
  · intro fetch m items
    simp [gather_readables]
  · intro fetch m items i it him hit
    simp [gather_readables, List.getElem?_take, him, hit]
  · intro fetch items
    simp [crawler_gather_readables]
  · intro fetch items i it hit
    simp [crawler_gather_readables, hit]
  · intro it
    exact ⟨rfl, rfl, rfl⟩

/-- Witness for the amended C5 at concrete inputs. -/
theorem c5_gather_amended_witness :
    (gather_readables (fun _ => ("", "")) 8 [itemA, itemB])[1]?
      = some { itemB with article_title := "", article_text := "" }
    ∧ (crawler_gather_readables (fun _ => CrawlFetch.exc) [itemA])[0]?
      = some (crawlerFetchOne itemA CrawlFetch.exc) :=
  ⟨c5_gather_amended.2.1 (fun _ => ("", "")) 8 [itemA, itemB] 1 itemB (by norm_num) rfl,
   c5_gather_amended.2.2.2.1 (fun _ => CrawlFetch.exc) [itemA] 0 itemA rfl⟩

/-! ## C8 — retry wrappers. -/

/-- Attempt shapes that `DoubaoClient.complete` retries on: every exception,
including the `HTTPStatusError` raised by `raise_for_status()` on 4xx/5xx. -/
def dFails : DAttempt → Prop
  | .resp s _ => 400 ≤ s
  | _ => True

/-- A single failing attempt inside the doubao loop. -/
theorem doubaoGo_fail (att : Nat → DAttempt) (fuel k : Nat) (h : dFails (att k)) :
    doubaoGo att (fuel + 1) k
      = { result := (doubaoGo att fuel (k + 1)).result,
          requests := (doubaoGo att fuel (k + 1)).requests + 1,
          sleeps := 2 ^ k :: (doubaoGo att fuel (k + 1)).sleeps } := by
  cases ha : att k with
  | resp s b =>
    rw [ha] at h
    simp only [doubaoGo, ha]
    rw [if_pos (show s ≥ 400 from h)]
  | readTimeout => simp [doubaoGo, ha]
  | httpErr => simp [doubaoGo, ha]
  | otherExc => simp [doubaoGo, ha]

/-- C8 counterexample: a constant 500 response is retried three times with
backoff sleeps of 1, 2 and 4 seconds and the last `HTTPStatusError` is finally
re-raised — the claim instead demands that a 4xx/5xx response be returned to
the caller without any retry. -/
theorem c8_counterexample :
    doubaoComplete (fun _ => DAttempt.resp 500 ("err"))
      = { result := DResult.raised, requests := 3, sleeps := [1, 2, 4] } := by
  rfl

/-- C8 amended: `DoubaoClient.complete` returns a < 400 response at once, but
retries up to 3 times — with backoff `1 * 2**attempt` — on *every* failure,
including 4xx/5xx statuses (turned into exceptions by `raise_for_status`), and
re-raises after exhaustion; `SearchService.fetch_readable` retries only on
timeout/connection/protocol errors, terminates on any received response
regardless of its status code, breaks out on any other exception, and never
raises (returning `('','')` after exhaustion). -/
theorem c8_retry_amended :
    (∀ att status body, att 0 = DAttempt.resp status body → status < 400 →
       doubaoComplete att = { result := DResult.ok body, requests := 1, sleeps := [] })
    ∧ (∀ att, (∀ k, k < 3 → dFails (att k)) →
       doubaoComplete att = { result := DResult.raised, requests := 3, sleeps := [1, 2, 4] })
    ∧ (∀ att status ih t x, att 0 = FAttempt.resp status ih t x →
       fetch_readable att
         = { result := if ih = true then (t, x) else ("", ""), requests := 1, sleeps := [] })
    ∧ (∀ att, (∀ k, k < 3 → att k = FAttempt.transient) →
       fetch_readable att = { result := ("", ""), requests := 3, sleeps := [1, 2, 4] })
    ∧ (∀ att, att 0 = FAttempt.otherExc →
       fetch_readable att = { result := ("", ""), requests := 1, sleeps := [] }) := by
  refine ⟨?_, ?_, ?_, ?_, ?_⟩
  · intro att status body h hlt
    have : ¬ status ≥ 400 := by omega
    simp [doubaoComplete, doubaoGo, h, this]
  · intro att h
    rw [doubaoComplete, doubaoGo_fail att 2 0 (h 0 (by norm_num)),
      doubaoGo_fail att 1 1 (h 1 (by norm_num)), doubaoGo_fail att 0 2 (h 2 (by norm_num))]
    rfl
  · intro att status ih t x h
    simp [fetch_readable, fetchGo, h]
  · intro att h
    rw [fetch_readable, fetchGo, h 0 (by norm_num), fetchGo, h 1 (by norm_num),
      fetchGo, h 2 (by norm_num)]
    rfl
  · intro att h
    simp [fetch_readable, fetchGo, h]

/-- Witness for the amended C8 at concrete attempt sequences. -/
theorem c8_retry_amended_witness :
    doubaoComplete (fun _ => DAttempt.resp 200 ("okbody"))
      = { result := DResult.ok ("okbody"), requests := 1, sleeps := [] }
    ∧ doubaoComplete (fun _ => DAttempt.readTimeout)
      = { result := DResult.raised, requests := 3, sleeps := [1, 2, 4] }
    ∧ fetch_readable (fun _ => FAttempt.resp 503 true ("t") ("x"))
      = { result := ("t", "x"), requests := 1, sleeps := [] }
    ∧ fetch_readable (fun _ => FAttempt.transient)
      = { result := ("", ""), requests := 3, sleeps := [1, 2, 4] } := by
  refine ⟨c8_retry_amended.1 _ 200 ("okbody") rfl (by norm_num), ?_, ?_, ?_⟩
  · exact c8_retry_amended.2.1 _ (fun k _ => trivial)
  · have := c8_retry_amended.2.2.1 (fun _ => FAttempt.resp 503 true ("t") ("x"))
      503 true ("t") ("x") rfl
    simpa using this
  · exact c8_retry_amended.2.2.2.1 _ (fun k _ => rfl)

/-! ## C9 — process-wide EXPERT_MODE mutation. -/

/-- C9: when the gathered items contain no non-empty article text, the handler
writes `EXPERT_MODE='false'` into the process environment; the flag read by the
synthesis stage of the same request — and, the mapping being process-wide, the
default for any later read — is then false, and stage 1 of expert mode does not
run. -/
theorem c9_env_mutation (env : EnvT) (items : List Item) (h : countText items = 0) :
    envGet (afterGatherEnv env items) ("EXPERT_MODE") = some ("false")
    ∧ expertFlag (afterGatherEnv env items) = false
    ∧ (∀ topic s1 s2 cr,
        (synthesisPhase env items topic s1 s2 cr).stage1Ran = false
        ∧ (synthesisPhase env items topic s1 s2 cr).envAfter = afterGatherEnv env items) := by
  have ha : afterGatherEnv env items = envSet env ("EXPERT_MODE") ("false") := by
    unfold afterGatherEnv
    rw [if_pos h]
  refine ⟨?_, ?_, ?_⟩
  · rw [ha]
    exact envGet_envSet_self env _ _
  · rw [ha]
    exact expertFlag_envSet_false env
  · intro topic s1 s2 cr
    have hf : expertFlag (afterGatherEnv env items) = false := by
      rw [ha]
      exact expertFlag_envSet_false env
    constructor
    · simp [synthesisPhase, hf, classicBranch]
    · simp [synthesisPhase, hf, classicBranch]

/-- Witness for C9 at a concrete environment and item list. -/
theorem c9_env_mutation_witness :
    envGet (afterGatherEnv [] [itemA]) ("EXPERT_MODE") = some ("false")
    ∧ expertFlag (afterGatherEnv [] [itemA]) = false :=
  ⟨(c9_env_mutation [] [itemA] (by decide)).1, (c9_env_mutation [] [itemA] (by decide)).2.1⟩

/-! ## C6 — expert-mode demotion. -/

/-- Helper: under the demotion condition, the synthesis dispatch lands in the
classic branch with `demoted = true`. -/
theorem synthesis_demotes (env0 : EnvT) (items : List Item) (topic jt : String)
    (s2 cr : Option String)
    (hex : expertFlag (afterGatherEnv env0 items) = true)
    (hparse : (try_parse_json_object jt).isEmpty = true
      ∨ refsTruthy (try_parse_json_object jt) = false) :
    synthesisPhase env0 items topic (some jt) s2 cr
      = classicBranch (afterGatherEnv env0 items) items topic cr true true := by
  simp only [synthesisPhase, hex, if_pos]
  rw [if_pos hparse]

theorem expertFlag_anyText (env0 : EnvT) (items : List Item)
    (hex : expertFlag (afterGatherEnv env0 items) = true) :
    anyText items = true := by
  have hcount : countText items ≠ 0 := by
    intro hc
    have : expertFlag (afterGatherEnv env0 items) = false := by
      unfold afterGatherEnv
      rw [if_pos hc]
      exact expertFlag_envSet_false env0
    rw [this] at hex
    exact Bool.false_ne_true hex
  exact countText_ne_zero_anyText items hcount

/-- C6: in expert mode (flag true after the gather-stage update), a stage-1
response whose parse yields an empty object or one without a truthy
`references` field demotes the request to the classic branch — which, the
expert flag being true, has evidence and therefore constructs the classic
single-stage prompt — with no crash (the dispatch is a total function); in
particular a stage-1 text of `"no json here"` parses to the empty object. -/
theorem c6_demotion (env0 : EnvT) (items : List Item) (topic jt : String)
    (s2 cr : Option String)
    (hex : expertFlag (afterGatherEnv env0 items) = true)
    (hparse : (try_parse_json_object jt).isEmpty = true
      ∨ refsTruthy (try_parse_json_object jt) = false) :
    (synthesisPhase env0 items topic (some jt) s2 cr).demoted = true
    ∧ (synthesisPhase env0 items topic (some jt) s2 cr).stage1Ran = true
    ∧ (synthesisPhase env0 items topic (some jt) s2 cr).promptBuilt = true
    ∧ try_parse_json_object ("no json here") = [] := by
  have hev : anyText items = true := expertFlag_anyText env0 items hex
  have hout := synthesis_demotes env0 items topic jt s2 cr hex hparse
  refine ⟨?_, ?_, ?_, rfl⟩
  · rw [hout]
    simp [classicBranch]
  · rw [hout]
    simp [classicBranch]
  · rw [hout]
    simp [classicBranch, hev]

/-- Witness for C6 at a concrete environment, item list and stage-1 text. -/
theorem c6_demotion_witness :
    (synthesisPhase [] [itemT] ("主题") (some ("no json here")) none (some ("报告正文"))).demoted
      = true
    ∧ (synthesisPhase [] [itemT] ("主题") (some ("no json here")) none
        (some ("报告正文"))).promptBuilt = true :=
  ⟨(c6_demotion [] [itemT] ("主题") ("no json here") none (some ("报告正文"))
      (by decide) (Or.inl rfl)).1,
   (c6_demotion [] [itemT] ("主题") ("no json here") none (some ("报告正文"))
      (by decide) (Or.inl rfl)).2.2.1⟩

/-! ## C10 — the response's "mode" field. -/

/-- C10 counterexample: with `EXPERT_MODE` set to `"True"` — a value different
from `"true"` — the response's mode field is still `"expert"` because the code
lowercases the value first, while the claim's rule (`"expert"` iff unset or
exactly `"true"`, otherwise `"classic"`) demands `"classic"`. -/
theorem c10_counterexample :
    responseMode ([(("EXPERT_MODE"), ("True"))]) = "expert"
    ∧ ("True" : String) ≠ "true" := by
  exact ⟨rfl, by decide⟩

/-- C10 amended: the mode field equals `"expert"` iff `EXPERT_MODE` is unset or
its *lowercased* value is `"true"`, evaluated on the environment as of response
construction and independent of the synthesis path: a request demoted to the
classic branch by a stage-1 parse failure still reports `"expert"`. -/
theorem c10_mode_amended :
    (∀ env : EnvT, envGet env ("EXPERT_MODE") = none → responseMode env = "expert")
    ∧ (∀ (env : EnvT) (v : String), envGet env ("EXPERT_MODE") = some v →
        (responseMode env = "expert" ↔ pyLower v = "true"))
    ∧ (∀ (env0 : EnvT) (items : List Item) (topic jt : String) (s2 cr : Option String),
        expertFlag (afterGatherEnv env0 items) = true →
        ((try_parse_json_object jt).isEmpty = true
          ∨ refsTruthy (try_parse_json_object jt) = false) →
        (synthesisPhase env0 items topic (some jt) s2 cr).demoted = true
        ∧ responseMode ((synthesisPhase env0 items topic (some jt) s2 cr).envAfter)
            = "expert") := by
  refine ⟨?_, ?_, ?_⟩
  · intro env h
    unfold responseMode expertFlag
    rw [h]
    rfl
  · intro env v h
    unfold responseMode expertFlag
    rw [h]
    constructor
    · intro hm
      by_cases hb : (pyLower v == "true") = true
      · exact eq_of_beq hb
      · rw [Option.getD_some] at hm
        rw [if_neg (by simp [hb])] at hm
        exact absurd hm (by decide)
    · intro hv
      rw [Option.getD_some, if_pos (by simp [hv])]
  · intro env0 items topic jt s2 cr hex hparse
    have hout := synthesis_demotes env0 items topic jt s2 cr hex hparse
    constructor
    · rw [hout]
      simp [classicBranch]
    · rw [hout]
      show responseMode (afterGatherEnv env0 items) = "expert"
      unfold responseMode
      rw [hex]
      rfl

/-- Witness for the amended C10 at concrete environments. -/
theorem c10_mode_amended_witness :
    responseMode [] = "expert"
    ∧ (responseMode ([(("EXPERT_MODE"), ("FALSE"))]) = "expert" ↔ pyLower ("FALSE") = "true")
    ∧ responseMode ((synthesisPhase [] [itemT] ("主题") (some ("no json here")) none
        (some ("报告"))).envAfter) = "expert" :=
  ⟨c10_mode_amended.1 [] rfl,
   c10_mode_amended.2.1 ([(("EXPERT_MODE"), ("FALSE"))]) ("FALSE") rfl,
   (c10_mode_amended.2.2 [] [itemT] ("主题") ("no json here") none (some ("报告"))
     (by decide) (Or.inl rfl)).2⟩

/-! ## C7 — the fallback report builder. -/

theorem toList_append (s t : String) : (s ++ t).toList = s.toList ++ t.toList :=
  String.data_append s t

theorem joinNL_cons (a : String) (rest : List String) :
    ∃ t, joinNL (a :: rest) = a ++ t := by
  cases rest with
  | nil => exact ⟨"", (String.append_empty a).symm⟩
  | cons b r => exact ⟨"\n" ++ joinNL (b :: r), String.append_assoc a "\n" (joinNL (b :: r))⟩

/-- C7: `build_fallback_markdown` is a total function (the embedding of a
Python function that performs no raising operation), and for every topic and
item list — the empty list included — its result is non-empty and contains the
topic as a substring (for the empty topic the heading falls back to `报告` and
the containment is trivial). -/
theorem c7_fallback_total (topic : String) (items : List Item) :
    build_fallback_markdown topic items ≠ ""
    ∧ ∃ u v, (build_fallback_markdown topic items).toList
        = u ++ topic.toList ++ v := by
  have hstruct : ∃ t, build_fallback_markdown topic items
      = ("# " ++ (if topic = "" then "报告" else topic)) ++ t := by
    unfold build_fallback_markdown
    exact joinNL_cons _ _
  obtain ⟨t, ht⟩ := hstruct
  have hdata : (build_fallback_markdown topic items).toList
      = ("# ").toList ++ (if topic = "" then "报告" else topic).toList ++ t.toList := by
    rw [ht, toList_append, toList_append]
  constructor
  · intro hc
    rw [hc] at hdata
    by_cases htop : topic = "" <;> simp [htop] at hdata
  · by_cases htop : topic = ""
    · refine ⟨[], (build_fallback_markdown topic items).toList, ?_⟩
      rw [htop]
      rfl
    · refine ⟨("# ").toList, t.toList, ?_⟩
      rw [hdata, if_neg htop]

/-! ## C3 — the ranking rule. -/

theorem rankSplit_eq (domOf : Item → String) (trusted blacklist : List String)
    (items : List Item) :
    rankSplit domOf trusted blacklist items
      = (items.filter (fun it =>
           decide (domOf it ∉ blacklist ∧ (trusted ≠ [] ∧ domOf it ∈ trusted))),
         items.filter (fun it =>
           decide (domOf it ∉ blacklist ∧ ¬ (trusted ≠ [] ∧ domOf it ∈ trusted)))) := by
  induction items with
  | nil => rfl
  | cons it rest ih =>
    by_cases h1 : domOf it ∈ blacklist
    · simp [rankSplit, h1, ih, List.filter_cons]
    · by_cases h2 : trusted ≠ [] ∧ domOf it ∈ trusted
      · simp [rankSplit, h1, h2, ih, List.filter_cons]
      · have h2' : trusted = [] ∨ domOf it ∉ trusted := by
          by_contra hc
          push_neg at hc
          exact h2 ⟨hc.1, hc.2⟩
        simp only [rankSplit, ih, if_neg h1, if_neg h2]
        simp only [List.filter_cons, decide_eq_true_eq]
        rw [if_neg (by tauto), if_pos (by tauto)]

theorem pyDedupAux_subset (l : List String) (seen : List String) (x : String)
    (h : x ∈ pyDedupAux seen l) : x ∈ l := by
  induction l generalizing seen with
  | nil => simp [pyDedupAux] at h
  | cons d rest ih =>
    by_cases hd : d ∈ seen
    · rw [pyDedupAux, if_pos hd] at h
      exact List.mem_cons_of_mem d (ih seen h)
    · rw [pyDedupAux, if_neg hd] at h
      rcases List.mem_cons.mp h with h1 | h2
      · rw [h1]
        exact List.mem_cons_self d rest
      · exact List.mem_cons_of_mem d (ih (d :: seen) h2)

/-- C3: the ranking rule — the single piece of code shared verbatim by the
ddgs/LLM/MCP/mock variants, here quantified over each variant's URL selector
`domOf` — equals the blacklist-cleansed trusted partition followed (unless
`only_trusted`) by the blacklist-cleansed rest, both in original relative
order, truncated to `max_results`; no blacklisted domain ever appears, and
under `only_trusted` every output domain is trusted.  The crawler variant
builds its list differently (it has no ranking step): every item it returns
originates from a configured trusted seed domain that is neither blacklisted
nor currently suppressed. -/
theorem c3_ranking :
    (∀ domOf trusted blacklist (ot : Bool) (mr : Nat) (items : List Item),
       rank_results domOf trusted blacklist ot mr items
         = ((items.filter (fun it =>
              decide (domOf it ∉ blacklist ∧ (trusted ≠ [] ∧ domOf it ∈ trusted))))
            ++ (if ot then [] else items.filter (fun it =>
              decide (domOf it ∉ blacklist ∧ ¬ (trusted ≠ [] ∧ domOf it ∈ trusted))))).take mr)
    ∧ (∀ domOf trusted blacklist (ot : Bool) (mr : Nat) (items : List Item) it,
        it ∈ rank_results domOf trusted blacklist ot mr items → domOf it ∉ blacklist)
    ∧ (∀ domOf trusted blacklist (mr : Nat) (items : List Item) it,
        it ∈ rank_results domOf trusted blacklist true mr items → domOf it ∈ trusted)
    ∧ (∀ blacklist sup (now perSite maxTotal : Nat) trusted bodies it,
        it ∈ crawler_search blacklist sup now perSite maxTotal trusted bodies →
        ∃ d, d ∈ trusted ∧ d ∉ blacklist ∧ isSuppressed sup d now = false
          ∧ ∃ its, bodies d = some its ∧ it ∈ its) := by
  have hmain : ∀ domOf trusted blacklist (ot : Bool) (mr : Nat) (items : List Item),
      rank_results domOf trusted blacklist ot mr items
        = ((items.filter (fun it =>
             decide (domOf it ∉ blacklist ∧ (trusted ≠ [] ∧ domOf it ∈ trusted))))
           ++ (if ot then [] else items.filter (fun it =>
             decide (domOf it ∉ blacklist ∧ ¬ (trusted ≠ [] ∧ domOf it ∈ trusted))))).take mr := by
    intro domOf trusted blacklist ot mr items
    unfold rank_results
    rw [rankSplit_eq]
  refine ⟨hmain, ?_, ?_, ?_⟩
  · intro domOf trusted blacklist ot mr items it hmem
    rw [hmain] at hmem
    have hmem2 := List.mem_of_mem_take hmem
    rcases List.mem_append.mp hmem2 with h | h
    · exact (of_decide_eq_true (List.mem_filter.mp h).2).1
    · cases ot with
      | false =>
        rw [if_neg (by simp)] at h
        exact (of_decide_eq_true (List.mem_filter.mp h).2).1
      | true =>
        rw [if_pos rfl] at h
        exact absurd h (List.not_mem_nil it)
  · intro domOf trusted blacklist mr items it hmem
    rw [hmain] at hmem
    have hmem2 := List.mem_of_mem_take hmem
    rw [if_pos rfl, List.append_nil] at hmem2
    exact (of_decide_eq_true (List.mem_filter.mp hmem2).2).2.2
  · intro blacklist sup now perSite maxTotal trusted bodies it hmem
    unfold crawler_search at hmem
    have hmem2 := List.mem_of_mem_take hmem
    rcases List.mem_flatten.mp hmem2 with ⟨l, hl, hit⟩
    rcases List.mem_map.mp hl with ⟨d, hd, rfl⟩
    have hdt : d ∈ trusted := pyDedupAux_subset trusted [] d hd
    refine ⟨d, hdt, ?_⟩
    unfold searchOneDomain at hit
    by_cases hb : d ∈ blacklist
    · rw [if_pos hb] at hit
      simp at hit
    · rw [if_neg hb] at hit
      by_cases hs : isSuppressed sup d now = true
      · rw [if_pos hs] at hit
        simp at hit
      · rw [if_neg hs] at hit
        refine ⟨hb, by simpa using hs, ?_⟩
        cases hbod : bodies d with
        | none =>
          rw [hbod] at hit
          simp at hit
        | some its =>
          rw [hbod] at hit
          refine ⟨its, rfl, ?_⟩
          exact List.mem_of_mem_take (by simpa using hit)

/-- Witness for C3 at concrete configurations. -/
theorem c3_ranking_witness :
    rank_results (fun it => it.source) ["trusted.cn"] ["bad.com"] true 5 [itemT, itemA]
      = (([itemT, itemA].filter (fun it =>
           decide (it.source ∉ ["bad.com"]
             ∧ ((["trusted.cn"] : List String) ≠ [] ∧ it.source ∈ ["trusted.cn"]))))
         ++ (if true then [] else [itemT, itemA].filter (fun it =>
           decide (it.source ∉ ["bad.com"]
             ∧ ¬ ((["trusted.cn"] : List String) ≠ []
               ∧ it.source ∈ ["trusted.cn"]))))).take 5
    ∧ (fun (it : Item) => it.source) itemT ∈ (["trusted.cn"] : List String)
    ∧ ∃ d, d ∈ (["trusted.cn"] : List String) ∧ d ∉ ([] : List String)
        ∧ isSuppressed [] d 0 = false
        ∧ ∃ its, (fun _ : String => some [itemT]) d = some its ∧ itemT ∈ its :=
  ⟨c3_ranking.1 (fun it => it.source) ["trusted.cn"] ["bad.com"] true 5 [itemT, itemA],
   c3_ranking.2.2.1 (fun it => it.source) ["trusted.cn"] ["bad.com"] 5 [itemT, itemA]
     itemT (by decide),
   c3_ranking.2.2.2 [] [] 0 5 10 ["trusted.cn"] (fun _ => some [itemT]) itemT (by decide)⟩

/-! ## C4 — JSON extraction and salvage. -/

/-- C4 counterexample.  First input: the fenced, syntactically valid array
`[1, 2]` (shown parsing successfully on its own) preceded by the prose
`note [1]` — the stray `[` of the prose becomes the slice start, the slice
`[1]\n(fence)\n[1, 2]` fails to parse, no braces exist to salvage, and the
extractor returns `none` instead of the array.  Second input: a truncated
array missing its closing bracket whose single complete top-level object
`{"a": "}"}` (shown parsing successfully on its own) contains a brace inside a
string literal — the naive brace counter closes the buffer at the quoted `}`,
the buffer fails to parse, and the extractor returns `none` instead of
recovering the object. -/
theorem c4_counterexample :
    json_loads_list (("[1, 2]").toList)
      = some (JValue.arr [JValue.num ("1"), JValue.num ("2")])
    ∧ extract_json_array ("note [1]\n```json\n[1, 2]\n```") = none
    ∧ json_loads_list (("\x7b\"a\": \"\x7d\"\x7d").toList)
      = some (JValue.obj [(("a"), JValue.str ("\x7d"))])
    ∧ extract_json_array ("[\x7b\"a\": \"\x7d\"\x7d") = none := by
  exact ⟨rfl, rfl, rfl, rfl⟩

theorem head?_decomp (a : List Char) (c : Char) (h : a.head? = some c) :
    ∃ w, a = c :: w := by
  cases a with
  | nil => simp at h
  | cons x xs =>
    rw [List.head?_cons] at h
    exact ⟨xs, by rw [Option.some_inj.mp h]⟩

theorem getLast?_decomp (a : List Char) (c : Char) (h : a.getLast? = some c) :
    ∃ w, a = w ++ [c] := by
  have h' : a.reverse.head? = some c := by rw [List.head?_reverse]; exact h
  obtain ⟨w, hw⟩ := head?_decomp a.reverse c h'
  refine ⟨w.reverse, ?_⟩
  have := congrArg List.reverse hw
  rw [List.reverse_reverse] at this
  rw [this]
  simp [List.reverse_cons]

theorem firstIdxOf_eq_none (c : Char) (l : List Char) (h : c ∉ l) :
    firstIdxOf c l = none := by
  induction l with
  | nil => rfl
  | cons x xs ih =>
    have hx : x ≠ c := fun he => h (he ▸ List.mem_cons_self x xs)
    rw [firstIdxOf, if_neg hx, ih (fun hm => h (List.mem_cons_of_mem x hm))]
    rfl

theorem firstIdxOf_append_notmem (c : Char) (p m : List Char) (hp : c ∉ p) :
    firstIdxOf c (p ++ m) = (firstIdxOf c m).map (· + p.length) := by
  induction p with
  | nil =>
    cases h : firstIdxOf c m <;> simp [h]
  | cons x xs ih =>
    have hx : x ≠ c := fun he => hp (he ▸ List.mem_cons_self x xs)
    rw [List.cons_append, firstIdxOf, if_neg hx,
      ih (fun hm => hp (List.mem_cons_of_mem x hm))]
    cases firstIdxOf c m with
    | none => rfl
    | some k =>
      simp only [Option.map_some']
      rw [Option.some_inj]
      simp only [List.length_cons]
      omega

theorem dropWhile_append_head (P : Char → Bool) (p m : List Char) (c : Char)
    (hm : m.head? = some c) (hc : P c = false) :
    (p ++ m).dropWhile P = p.dropWhile P ++ m := by
  induction p with
  | nil =>
    obtain ⟨w, rfl⟩ := head?_decomp m c hm
    simp [List.dropWhile_cons, hc]
  | cons x xs ih =>
    by_cases hx : P x = true
    · rw [List.cons_append, List.dropWhile_cons_of_pos hx, List.dropWhile_cons_of_pos hx, ih]
    · rw [List.cons_append, List.dropWhile_cons_of_neg (by simp [hx]),
        List.dropWhile_cons_of_neg (by simp [hx]), List.cons_append]

theorem begSeg_left_cancel (L : List Char) : ∀ (p m : List Char) (c : Char),
    begSeg L (p ++ m) = true → m.head? = some c → c ∉ L → ∃ p2, p = L ++ p2 := by
  induction L with
  | nil => exact fun p m c _ _ _ => ⟨p, rfl⟩
  | cons x xs ih =>
    intro p m c h hm hc
    cases p with
    | nil =>
      obtain ⟨w, rfl⟩ := head?_decomp m c hm
      rw [List.nil_append, begSeg, Bool.and_eq_true] at h
      exact absurd (eq_of_beq h.1 ▸ List.mem_cons_self x xs) (eq_of_beq h.1 ▸ hc)
    | cons y p' =>
      rw [List.cons_append, begSeg, Bool.and_eq_true] at h
      obtain ⟨p2, rfl⟩ := ih p' m c h.2 hm (fun hmem => hc (List.mem_cons_of_mem x hmem))
      exact ⟨p2, by rw [eq_of_beq h.1]; rfl⟩

theorem pyStrip_decomp (p a q : List Char) (h1 : a.head? = some '[')
    (h2 : a.getLast? = some ']') :
    ∃ p1 q1, pyStrip (p ++ a ++ q) = p1 ++ a ++ q1
      ∧ (∀ x, x ∈ p1 → x ∈ p) ∧ (∀ x, x ∈ q1 → x ∈ q) := by
  obtain ⟨w, hw⟩ := head?_decomp a '[' h1
  obtain ⟨w2, hw2⟩ := getLast?_decomp a ']' h2
  have haq : (a ++ q).head? = some '[' := by
    rw [hw]
    rfl
  have e1 : (p ++ a ++ q).dropWhile Char.isWhitespace
      = p.dropWhile Char.isWhitespace ++ (a ++ q) := by
    rw [List.append_assoc]
    exact dropWhile_append_head Char.isWhitespace p (a ++ q) '[' haq (by decide)
  have hrevlast : (a.reverse ++ (p.dropWhile Char.isWhitespace).reverse).head? = some ']' := by
    have : a.reverse.head? = some ']' := by rw [List.head?_reverse]; exact h2
    obtain ⟨w3, hw3⟩ := head?_decomp a.reverse ']' this
    rw [hw3]
    rfl
  have e2 : (p.dropWhile Char.isWhitespace ++ (a ++ q)).reverse
      = q.reverse ++ (a.reverse ++ (p.dropWhile Char.isWhitespace).reverse) := by
    rw [List.reverse_append, List.reverse_append, List.append_assoc]
  refine ⟨p.dropWhile Char.isWhitespace, (q.reverse.dropWhile Char.isWhitespace).reverse,
    ?_, ?_, ?_⟩
  · unfold pyStrip
    rw [e1, e2, dropWhile_append_head Char.isWhitespace q.reverse _ ']' hrevlast (by decide)]
    rw [List.reverse_append, List.reverse_append, List.reverse_reverse, List.reverse_reverse]
  · intro x hx
    exact List.Sublist.mem hx (List.dropWhile_sublist _)
  · intro x hx
    rw [List.mem_reverse] at hx
    have := List.Sublist.mem hx (List.dropWhile_sublist _)
    rw [List.mem_reverse] at this
    exact this

theorem stripFencePrefix_decomp (p m : List Char) (hp : '[' ∉ p)
    (hm : m.head? = some '[') :
    ∃ p2, stripFencePrefix (p ++ m) = p2 ++ m ∧ '[' ∉ p2 := by
  have key : ∀ (L : List Char) (n : Nat), ('[' : Char) ∉ L → L.length = n →
      begSeg L (p ++ m) = true →
      ∃ p2, (p ++ m).drop n = p2 ++ m ∧ '[' ∉ p2 := by
    intro L n hL hn h
    obtain ⟨p2, rfl⟩ := begSeg_left_cancel L p m '[' h hm hL
    refine ⟨p2, ?_, fun hx => hp (List.mem_append_right _ hx)⟩
    rw [List.append_assoc, ← hn]
    exact List.drop_left L (p2 ++ m)
  unfold stripFencePrefix
  split_ifs with hc1 hc2 hc3 hc4
  · exact key _ 9 (by decide) (by decide) hc1
  · exact key _ 8 (by decide) (by decide) hc2
  · exact key _ 5 (by decide) (by decide) hc3
  · exact key _ 4 (by decide) (by decide) hc4
  · exact ⟨p, rfl, hp⟩

theorem stripFenceSuffix_decomp (m q : List Char) (hq : ']' ∉ q)
    (hm : m.getLast? = some ']') :
    ∃ q2, stripFenceSuffix (m ++ q) = m ++ q2 ∧ ']' ∉ q2 := by
  have hm' : m.reverse.head? = some ']' := by rw [List.head?_reverse]; exact hm
  have hq' : (']' : Char) ∉ q.reverse := fun h => hq (List.mem_reverse.mp h)
  have hrev : (m ++ q).reverse = q.reverse ++ m.reverse := List.reverse_append m q
  have key : ∀ (L : List Char) (n : Nat), (']' : Char) ∉ L → L.length = n →
      begSeg L ((m ++ q).reverse) = true →
      ∃ q2, ((m ++ q).reverse.drop n).reverse = m ++ q2 ∧ ']' ∉ q2 := by
    intro L n hL hn h
    rw [hrev] at h
    obtain ⟨q2r, hq2r⟩ := begSeg_left_cancel L q.reverse m.reverse ']' h hm' hL
    refine ⟨q2r.reverse, ?_, ?_⟩
    · rw [hrev, hq2r, List.append_assoc, ← hn, List.drop_left L (q2r ++ m.reverse),
        List.reverse_append, List.reverse_reverse]
    · intro hx
      rw [List.mem_reverse] at hx
      exact hq' (hq2r ▸ List.mem_append_right L hx)
  unfold stripFenceSuffix
  split_ifs with hc1 hc2
  · exact key _ 5 (by decide) (by decide) hc1
  · exact key _ 4 (by decide) (by decide) hc2
  · exact ⟨q, rfl, hq⟩

theorem preClean_decomp (p a q : List Char) (hp : '[' ∉ p) (hq : ']' ∉ q)
    (h1 : a.head? = some '[') (h2 : a.getLast? = some ']') :
    ∃ p2 q2, preClean (p ++ a ++ q) = p2 ++ a ++ q2 ∧ '[' ∉ p2 ∧ ']' ∉ q2 := by
  obtain ⟨p1, q1, e1, hp1s, hq1s⟩ := pyStrip_decomp p a q h1 h2
  have hp1 : '[' ∉ p1 := fun h => hp (hp1s _ h)
  have hq1 : (']' : Char) ∉ q1 := fun h => hq (hq1s _ h)
  have haq1 : (a ++ q1).head? = some '[' := by
    obtain ⟨w, rfl⟩ := head?_decomp a '[' h1
    rfl
  obtain ⟨p2, e2, hp2⟩ := stripFencePrefix_decomp p1 (a ++ q1) hp1 haq1
  have hlast : (p2 ++ a).getLast? = some ']' := by
    obtain ⟨w2, rfl⟩ := getLast?_decomp a ']' h2
    rw [← List.append_assoc]
    exact List.getLast?_concat _
  obtain ⟨q2, e3, hq2⟩ := stripFenceSuffix_decomp (p2 ++ a) q1 hq1 hlast
  refine ⟨p2, q2, ?_, hp2, hq2⟩
  unfold preClean
  rw [e1, List.append_assoc, e2, ← List.append_assoc, e3, List.append_assoc]

theorem snippet_eq (p2 a q2 : List Char) (hp : '[' ∉ p2) (hq : ']' ∉ q2)
    (h1 : a.head? = some '[') (h2 : a.getLast? = some ']') :
    firstIdxOf '[' (p2 ++ a ++ q2) = some p2.length
    ∧ lastIdxOf (p2 ++ a ++ q2) ']' = some (p2.length + a.length - 1)
    ∧ ((p2 ++ a ++ q2).drop p2.length).take ((p2.length + a.length - 1) + 1 - p2.length)
        = a := by
  obtain ⟨w, hw⟩ := head?_decomp a '[' h1
  have hlen : 1 ≤ a.length := by
    rw [hw]
    simp
  have efirst : firstIdxOf '[' (p2 ++ a ++ q2) = some p2.length := by
    rw [List.append_assoc, firstIdxOf_append_notmem '[' p2 (a ++ q2) hp, hw]
    rw [List.cons_append, firstIdxOf, if_pos rfl]
    simp
  have erevfirst : firstIdxOf ']' (p2 ++ a ++ q2).reverse = some q2.length := by
    rw [List.reverse_append, List.reverse_append]
    have hqrev : (']' : Char) ∉ q2.reverse := fun h => hq (List.mem_reverse.mp h)
    rw [firstIdxOf_append_notmem ']' q2.reverse _ hqrev]
    have har : a.reverse.head? = some ']' := by rw [List.head?_reverse]; exact h2
    obtain ⟨w3, hw3⟩ := head?_decomp a.reverse ']' har
    rw [hw3, List.cons_append, firstIdxOf, if_pos rfl]
    simp
  have elast : lastIdxOf (p2 ++ a ++ q2) ']' = some (p2.length + a.length - 1) := by
    unfold lastIdxOf
    rw [erevfirst]
    simp only [Option.map_some']
    rw [Option.some_inj]
    rw [List.length_append, List.length_append]
    omega
  refine ⟨efirst, elast, ?_⟩
  rw [List.append_assoc, List.drop_left p2 (a ++ q2)]
  have harith : p2.length + a.length - 1 + 1 - p2.length = a.length := by omega
  rw [harith]
  exact List.take_left a q2

theorem salvage_skip (sep : List Char) (rest : List Char)
    (h : ∀ x ∈ sep, x ≠ '{' ∧ x ≠ '}') :
    salvageLoop (sep ++ rest) [] 0 false = salvageLoop rest [] 0 false := by
  induction sep with
  | nil => rfl
  | cons c cs ih =>
    have hc := h c (List.mem_cons_self c cs)
    rw [List.cons_append, salvageLoop]
    simp only [if_neg hc.1, if_neg hc.2, Bool.false_eq_true]
    rw [if_neg (by simp)]
    exact ih (fun x hx => h x (List.mem_cons_of_mem c hx))

/-- The one-object emission of the salvage loop. -/
def salvageEmit (o : List Char) : List JValue :=
  match json_loads_list o with
  | some (JValue.obj kvs) => [JValue.obj kvs]
  | _ => []

theorem salvage_obj_aux (o2 : List Char) : ∀ (rest buf : List Char) (d : Nat),
    0 < d → naiveObjAux o2 d = true → buf ≠ [] →
    salvageLoop (o2 ++ rest) buf d true
      = salvageEmit (buf ++ o2) ++ salvageLoop rest [] 0 false := by
  induction o2 with
  | nil =>
    intro rest buf d hd haux hbuf
    rw [naiveObjAux] at haux
    exact absurd haux (by simp)
  | cons c o3 ih =>
    intro rest buf d hd haux hbuf
    rw [naiveObjAux] at haux
    by_cases hcl : c = '}'
    · subst hcl
      have hnotop : ('}' : Char) ≠ '{' := by decide
      by_cases hzero : d - 1 = 0
      · have hcond : (('}' : Char) = '}' ∧ (if ('}' : Char) = '{' then d + 1
            else if ('}' : Char) = '}' then d - 1 else d) = 0) := by
          rw [if_neg hnotop, if_pos rfl]
          exact ⟨rfl, hzero⟩
        rw [if_pos hcond] at haux
        have ho3 : o3 = [] := by simpa using haux
        subst ho3
        rw [List.cons_append, List.nil_append, salvageLoop]
        simp only [if_neg hnotop, if_pos rfl, if_pos (show True by trivial)]
        rw [if_pos ⟨hzero, by simp⟩, hzero]
        rfl
      · have hcond : ¬ (('}' : Char) = '}' ∧ (if ('}' : Char) = '{' then d + 1
            else if ('}' : Char) = '}' then d - 1 else d) = 0) := by
          rw [if_neg hnotop, if_pos rfl]
          exact fun hc => hzero hc.2
        rw [if_neg hcond] at haux
        rw [if_neg hnotop, if_pos rfl] at haux
        rw [List.cons_append, salvageLoop]
        simp only [if_neg hnotop, if_pos rfl, if_pos (show True by trivial)]
        rw [if_neg (fun hc => hzero hc.1)]
        rw [ih rest (buf ++ ['}']) (d - 1) (by omega) haux (by simp)]
        rw [List.append_assoc]
        rfl
    · have hd1 : (if c = '{' then d + 1 else if c = '}' then d - 1 else d)
          = (if c = '{' then d + 1 else d) := by
        by_cases ho : c = '{'
        · rw [if_pos ho, if_pos ho]
        · rw [if_neg ho, if_neg ho, if_neg hcl]
      rw [if_neg (fun hc => hcl hc.1), hd1] at haux
      rw [List.cons_append, salvageLoop]
      have hst : (if c = '{' then true else true) = true := by
        by_cases ho : c = '{' <;> simp [ho]
      simp only [hst, if_pos (show True by trivial)]
      rw [if_neg hcl]
      have hd2 : 0 < (if c = '{' then d + 1 else d) := by
        by_cases ho : c = '{'
        · simp [ho]
        · simpa [ho] using hd
      rw [ih rest (buf ++ [c]) _ hd2 haux (by simp)]
      rw [List.append_assoc]
      rfl

theorem salvage_obj (o : List Char) (rest : List Char) (h : isNaiveObj o = true) :
    salvageLoop (o ++ rest) [] 0 false
      = salvageEmit o ++ salvageLoop rest [] 0 false := by
  cases o with
  | nil => simp [isNaiveObj] at h
  | cons c o2 =>
    rw [isNaiveObj, Bool.and_eq_true] at h
    have hc : c = '{' := by
      have := h.1
      simpa using this
    subst hc
    rw [List.cons_append, salvageLoop]
    have hne : ('{' : Char) ≠ '}' := by decide
    simp only [if_pos rfl, if_pos (show True by trivial)]
    rw [if_neg hne]
    simp only [List.nil_append]
    rw [salvage_obj_aux o2 rest (['{']) (0 + 1) (by omega) h.2 (by simp)]
    rfl

theorem salvage_never (g : List Char) : ∀ (buf : List Char) (d : Nat) (st : Bool),
    closesNever g d = true → salvageLoop g buf d st = [] := by
  induction g with
  | nil => intro buf d st _; rfl
  | cons c g2 ih =>
    intro buf d st h
    rw [closesNever] at h
    by_cases hcl : c = '}'
    · subst hcl
      have hnotop : ('}' : Char) ≠ '{' := by decide
      rw [if_neg hnotop, if_pos rfl] at h
      by_cases hz : d - 1 = 0
      · rw [if_pos ⟨rfl, hz⟩] at h
        exact absurd h (by simp)
      · rw [if_neg (fun hc => hz hc.2)] at h
        rw [salvageLoop]
        simp only [if_neg hnotop, if_true]
        rw [if_neg (fun hc => hz hc.1)]
        exact ih _ _ _ h
    · have hd1 : (if c = '{' then d + 1 else if c = '}' then d - 1 else d)
          = (if c = '{' then d + 1 else d) := by
        by_cases ho : c = '{'
        · rw [if_pos ho, if_pos ho]
        · rw [if_neg ho, if_neg ho, if_neg hcl]
      rw [if_neg (fun hc => hcl hc.1), hd1] at h
      rw [salvageLoop, if_neg hcl]
      exact ih _ _ _ h

theorem salvage_chunks (cs : List (List Char × List Char)) (g : List Char)
    (h : ∀ c ∈ cs, (∀ x ∈ c.1, x ≠ '{' ∧ x ≠ '}') ∧ isNaiveObj c.2 = true
      ∧ ∃ kvs, json_loads_list c.2 = some (JValue.obj kvs))
    (hg : closesNever g 0 = true) :
    salvageLoop (chunksJoin cs ++ g) [] 0 false
      = cs.map (fun c => chunkObj c.2) := by
  induction cs with
  | nil =>
    rw [chunksJoin]
    simp only [List.map_nil, List.flatten_nil, List.nil_append]
    rw [salvage_never g [] 0 false hg]
  | cons c cs' ih =>
    obtain ⟨hsep, hobj, kvs, hkvs⟩ := h c (List.mem_cons_self c cs')
    have hrest := fun x hx => h x (List.mem_cons_of_mem c hx)
    have e : chunksJoin (c :: cs') ++ g = c.1 ++ (c.2 ++ (chunksJoin cs' ++ g)) := by
      rw [chunksJoin, List.map_cons, List.flatten_cons, chunksJoin]
      rw [List.append_assoc, List.append_assoc]
    rw [e, salvage_skip c.1 _ hsep, salvage_obj c.2 _ hobj, ih hrest]
    rw [List.map_cons]
    unfold salvageEmit chunkObj
    rw [hkvs]
    rfl

/-- C4 amended.  Part 1 (fence/prose round-trip): the extractor recovers a
fenced or bare JSON array surrounded by arbitrary prose *provided* the prose
before the array contains no `[` and the prose after it contains no `]` (the
counterexample shows the claim fails otherwise, since the slice runs from the
first `[` to the last `]` of the whole text).  Part 2 (truncated-array
salvage): from a truncated array with no `]` anywhere, whose body is an
alternating sequence of brace-free separators and complete top-level objects
that are naively brace-balanced — no braces inside string literals, the second
condition the counterexample shows to be necessary — followed by trailing
garbage that never closes a brace, the extractor recovers exactly the parsed
complete objects (the text assumed already stripped, as the fence/whitespace
trimming is identity on such inputs). -/
theorem c4_salvage_amended :
    (∀ (p a q : List Char) (vs : List JValue), '[' ∉ p → ']' ∉ q →
       a.head? = some '[' → a.getLast? = some ']' →
       json_loads_list a = some (JValue.arr vs) →
       extract_json_array (String.mk (p ++ a ++ q)) = some vs)
    ∧ (∀ (p g : List Char) (cs : List (List Char × List Char)),
       '[' ∉ p →
       (']' : Char) ∉ p ++ '[' :: (chunksJoin cs ++ g) →
       preClean (p ++ '[' :: (chunksJoin cs ++ g)) = p ++ '[' :: (chunksJoin cs ++ g) →
       (∀ c ∈ cs, (∀ x ∈ c.1, x ≠ '{' ∧ x ≠ '}') ∧ isNaiveObj c.2 = true
         ∧ ∃ kvs, json_loads_list c.2 = some (JValue.obj kvs)) →
       closesNever g 0 = true →
       cs ≠ [] →
       json_loads_list ('[' :: (chunksJoin cs ++ g)) = none →
       extract_json_array (String.mk (p ++ '[' :: (chunksJoin cs ++ g)))
         = some (cs.map (fun c => chunkObj c.2))) := by
  constructor
  · intro p a q vs hp hq h1 h2 hparse
    obtain ⟨p2, q2, epre, hp2, hq2⟩ := preClean_decomp p a q hp hq h1 h2
    obtain ⟨efirst, elast, esnip⟩ := snippet_eq p2 a q2 hp2 hq2 h1 h2
    have hne : (p ++ a ++ q).isEmpty = false := by
      obtain ⟨w, rfl⟩ := head?_decomp a '[' h1
      simp
    have eslice : sliceFor (p2 ++ a ++ q2) p2.length = a := by
      unfold sliceFor
      rw [elast]
      exact esnip
    have epars : parseSnippet (sliceFor (p2 ++ a ++ q2) p2.length) = some vs := by
      rw [eslice]
      unfold parseSnippet
      rw [hparse]
    show extract_json_array_list (p ++ a ++ q) = some vs
    unfold extract_json_array_list
    rw [if_neg (show ¬ ((p ++ a ++ q).isEmpty = true) by rw [hne]; simp), epre, efirst]
    show (match parseSnippet (sliceFor (p2 ++ a ++ q2) p2.length) with
          | some vs0 => some vs0
          | none => wholeParse (p2 ++ a ++ q2)) = some vs
    rw [epars]
  · intro p g cs hp hqall hclean hcs hg hne hfail
    cases cs with
    | nil => exact absurd rfl hne
    | cons c cs' =>
      have efirst : firstIdxOf '[' (p ++ '[' :: (chunksJoin (c :: cs') ++ g))
          = some p.length := by
        rw [firstIdxOf_append_notmem '[' p _ hp, firstIdxOf, if_pos rfl]
        simp
      have elast : lastIdxOf (p ++ '[' :: (chunksJoin (c :: cs') ++ g)) ']' = none := by
        unfold lastIdxOf
        rw [firstIdxOf_eq_none ']' _ (fun hmem => hqall (List.mem_reverse.mp hmem))]
        rfl
      have eslice : sliceFor (p ++ '[' :: (chunksJoin (c :: cs') ++ g)) p.length
          = '[' :: (chunksJoin (c :: cs') ++ g) := by
        unfold sliceFor
        rw [elast]
        exact List.drop_left p _
      have esalv : salvageLoop ('[' :: (chunksJoin (c :: cs') ++ g)) [] 0 false
          = (c :: cs').map (fun c => chunkObj c.2) := by
        rw [show ('[' :: (chunksJoin (c :: cs') ++ g))
            = ['['] ++ (chunksJoin (c :: cs') ++ g) from rfl]
        rw [salvage_skip (['[']) _ (by decide)]
        exact salvage_chunks (c :: cs') g hcs hg
      have epars : parseSnippet (sliceFor (p ++ '[' :: (chunksJoin (c :: cs') ++ g)) p.length)
          = some ((c :: cs').map (fun c => chunkObj c.2)) := by
        rw [eslice]
        unfold parseSnippet
        rw [hfail, esalv, List.map_cons]
      have hnet : (p ++ '[' :: (chunksJoin (c :: cs') ++ g)).isEmpty = false := by simp
      show extract_json_array_list (p ++ '[' :: (chunksJoin (c :: cs') ++ g))
        = some ((c :: cs').map (fun c => chunkObj c.2))
      unfold extract_json_array_list
      rw [if_neg (show ¬ ((p ++ '[' :: (chunksJoin (c :: cs') ++ g)).isEmpty = true)
            by rw [hnet]; simp),
        hclean, efirst]
      show (match parseSnippet (sliceFor (p ++ '[' :: (chunksJoin (c :: cs') ++ g))
              p.length) with
            | some vs0 => some vs0
            | none => wholeParse (p ++ '[' :: (chunksJoin (c :: cs') ++ g)))
          = some ((c :: cs').map (fun c => chunkObj c.2))
      rw [epars]

/-- Witness for the amended C4: a fenced array with prose on both sides
(bracket-free before/after), and a truncated array with two complete objects
and a truncated third. -/
theorem c4_salvage_amended_witness :
    extract_json_array (String.mk ((("Result:\n```json\n").toList)
        ++ (("[\x7b\"k\": 1\x7d]").toList) ++ (("\n```\nDone.").toList)))
      = some [JValue.obj [(("k"), JValue.num ("1"))]]
    ∧ extract_json_array (String.mk ((("Reply: ").toList)
        ++ '[' :: (chunksJoin [(([] : List Char), ("\x7b\"a\": 1\x7d").toList),
            ((", ").toList, ("\x7b\"b\": 2\x7d").toList)]
          ++ ((", \x7b\"broken\": 3").toList))))
      = some [JValue.obj [(("a"), JValue.num ("1"))],
              JValue.obj [(("b"), JValue.num ("2"))]] := by
  constructor
  · exact c4_salvage_amended.1 (("Result:\n```json\n").toList)
      (("[\x7b\"k\": 1\x7d]").toList) (("\n```\nDone.").toList)
      [JValue.obj [(("k"), JValue.num ("1"))]]
      (by decide) (by decide) rfl rfl rfl
  · refine (c4_salvage_amended.2 (("Reply: ").toList) ((", \x7b\"broken\": 3").toList)
      [(([] : List Char), ("\x7b\"a\": 1\x7d").toList),
       ((", ").toList, ("\x7b\"b\": 2\x7d").toList)]
      (by decide) (by decide) rfl ?_ (by decide) (by simp) rfl).trans rfl
    intro c hc
    simp only [List.mem_cons, List.not_mem_nil, or_false] at hc
    rcases hc with rfl | rfl
    · exact ⟨by decide, by decide, ⟨[(("a"), JValue.num ("1"))], rfl⟩⟩
    · exact ⟨by decide, by decide, ⟨[(("b"), JValue.num ("2"))], rfl⟩⟩
